import Mathlib

/-!
Verification development for the LeadTube scraper core
(`leadscraper/scraper.py` together with the constants it reads from
`leadscraper/config.py`).

The embedding mirrors the Python source:

* `YouTubeClientManager.get_client` / `api_request` become `get_client_index`
  and `api_request`; a wrapped request is modelled as a function from the
  attempt number to an `Except PyExc` outcome, and the wrapper additionally
  returns the list of key indices it used (one entry per `get_client` grant).
* `extract_emails` is embedded together with an executable model of
  `re.findall` for the fixed pattern
  `[a-zA-Z0-9._%+-]+@[a-zA-Z0-9.-]+\.[a-zA-Z]\x7b2,\x7d`
  (leftmost scan, greedy quantifiers with backtracking).
* `load_checkpoint` is embedded over an abstract file state; a present but
  OS-unreadable file makes `open` raise (e.g. `PermissionError`), which the
  `except (FileNotFoundError, json.JSONDecodeError)` clause does not catch.
* `process_keyword` / `run_scraper` are embedded with explicit state passing.
  The remote API and the spreadsheet are total oracles in `ApiEnv` (the claims
  below are about runs whose API calls succeed); `should_stop` is a
  time-indexed flag sampled at the same program points as in the source, with
  a call counter (`clock`) threaded through; the `as_completed` iteration in
  the append step is modelled in submission order (the spec leaves row order
  inside a page unconstrained).  Python dictionaries keyed by strings become
  association lists (`lookupA` / `insertA`).  `process_keyword` has no
  `return` statement, so its Python value is `None`: the embedding returns
  `Option Nat` and that component is always `none`; `total_added += count` in
  `run_scraper` is `addTotal`, which faults on `none` exactly as `int + None`
  raises `TypeError`.
-/

/-- Allowed country codes, from `config.ALLOWED_COUNTRIES` (a non-empty set;
only membership and emptiness are consumed, so a list suffices). -/
def ALLOWED_COUNTRIES : List String :=
  ["US", "CA", "GB", "AU",
   "DZ", "AO", "BJ", "BW", "BF", "BI", "CM", "CV", "CF", "TD", "KM", "CG",
   "CD", "DJ", "EG", "GQ", "ER", "SZ", "ET", "GA", "GM", "GH", "GN", "GW",
   "KE", "LS", "LR", "LY", "MG", "MW", "ML", "MR", "MU", "MA", "MZ", "NA",
   "NE", "NG", "RW", "ST", "SN", "SC", "SL", "SO", "ZA", "SS", "SD", "TZ",
   "TG", "TN", "UG", "ZM", "ZW"]

/-- From `config.MAX_RESULTS_PER_SEARCH` (page size requested from search). -/
def MAX_RESULTS_PER_SEARCH : Nat := 50

/-- From `config.MAX_VALID_PER_KEYWORD` (per-keyword cap on added rows). -/
def MAX_VALID_PER_KEYWORD : Nat := 100

/-- Exceptions distinguished by `api_request`: `googleapiclient` HTTP errors
carry a response status; anything else is a generic exception. -/
inductive PyExc where
  | http (status : Nat)
  | other (msg : String)
deriving DecidableEq

/-- Statuses treated as quota-class in `api_request` (`status in (403, 429)`). -/
def isQuotaStatus (s : Nat) : Bool := s == 403 || s == 429

/-- Cursor update performed by `YouTubeClientManager.get_client`:
`current_key_index = (current_key_index + 1) % len(api_keys)`.  The key
granted by a call is the index *before* this update. -/
def get_client_index (n idx : Nat) : Nat := (idx + 1) % n

/-- Loop body of `YouTubeClientManager.api_request`.  `f t` is the outcome of
the wrapped call on attempt `t`; `r` is the number of loop iterations left
(`for _ in range(len(self.api_keys))`), `idx` the manager's current key index,
`last` the `last_exc` variable.  Returns the request outcome and the list of
key indices granted by `get_client`, in order. -/
def apiRequestGo {α : Type} (f : Nat → Except PyExc α) (n : Nat) :
    Nat → Nat → Nat → Option PyExc → Except PyExc α × List Nat
  | 0, _, _, last =>
      (Except.error (last.getD (PyExc.other
        "API request failed after multiple retries with all available keys.")), [])
  | r + 1, t, idx, _last =>
      match f t with
      | Except.ok a => (Except.ok a, [idx])
      | Except.error (PyExc.http s) =>
          if isQuotaStatus s then
            let res := apiRequestGo f n r (t + 1) (get_client_index n idx) (some (PyExc.http s))
            (res.1, idx :: res.2)
          else (Except.error (PyExc.http s), [idx])
      | Except.error (PyExc.other m) =>
          let res := apiRequestGo f n r (t + 1) (get_client_index n idx) (some (PyExc.other m))
          (res.1, idx :: res.2)

/-- `YouTubeClientManager.api_request` for a pool of `n` keys whose cursor
currently stands at `idx`. -/
def api_request {α : Type} (f : Nat → Except PyExc α) (n idx : Nat) :
    Except PyExc α × List Nat :=
  apiRequestGo f n n 0 idx none

/-- Character class `[a-zA-Z0-9._%+-]` (local part of the email pattern). -/
def isLocalChar (c : Char) : Bool :=
  c.isAlpha || c.isDigit || c == '.' || c == '_' || c == '%' || c == '+' || c == '-'

/-- Character class `[a-zA-Z0-9.-]` (domain part of the email pattern). -/
def isDomainChar (c : Char) : Bool :=
  c.isAlpha || c.isDigit || c == '.' || c == '-'

/-- Greedy `[a-zA-Z]\x7b2,\x7d` run starting right after position `p` of the
domain run. -/
def tldAt (dom : List Char) (p : Nat) : List Char :=
  (dom.drop (p + 1)).takeWhile Char.isAlpha

/-- One backtracking step of the domain part of the pattern: the first
`[a-zA-Z0-9.-]+` consumes `dom.take p`, then `\.` must match at position `p`
and `[a-zA-Z]\x7b2,\x7d` needs at least two letters after it.  Returns
(first chunk, TLD, unconsumed remainder of the domain run). -/
def domMatchAt (dom : List Char) (p : Nat) :
    Option (List Char × List Char × List Char) :=
  if dom.get? p = some '.' ∧ 2 ≤ (tldAt dom p).length then
    some (dom.take p, tldAt dom p, (dom.drop (p + 1)).dropWhile Char.isAlpha)
  else none

/-- Backtracking search for the split of the domain run: the regex engine
gives back one character at a time from the greedy first `+`, so the largest
workable split position wins.  Positions are tried from `n` down to `1` (the
first chunk must be non-empty). -/
def domSplitGo (dom : List Char) : Nat → Option (List Char × List Char × List Char)
  | 0 => none
  | p + 1 =>
      match domMatchAt dom (p + 1) with
      | some r => some r
      | none => domSplitGo dom p

/-- Split of a maximal domain-character run as the pattern
`[a-zA-Z0-9.-]+\.[a-zA-Z]\x7b2,\x7d` matches it (greedy with backtracking). -/
def domSplit (dom : List Char) : Option (List Char × List Char × List Char) :=
  domSplitGo dom dom.length

/-- Attempt to match the whole email pattern at the start of `s`.  On success
returns the matched text and the rest of the input after the match.  The local
part is the maximal run of local characters (shortening it cannot help, since
the run is followed by a non-local character, which `@` would have to be). -/
def matchAt (s : List Char) : Option (List Char × List Char) :=
  let loc := s.takeWhile isLocalChar
  match s.dropWhile isLocalChar with
  | [] => none
  | a :: r2 =>
      if loc = [] ∨ a ≠ '@' then none
      else
        let dom := r2.takeWhile isDomainChar
        match domSplit dom with
        | some (pre, tld, leftover) =>
            some (loc ++ a :: (pre ++ '.' :: tld),
                  leftover ++ r2.dropWhile isDomainChar)
        | none => none

/-- `re.findall` scan: try each start position left to right, resume after the
end of every match.  The fuel argument only bounds the recursion; every step
either skips one character or removes a non-empty match, so `s.length` fuel is
enough (`findallGo_fuel` below makes this precise). -/
def findallGo : Nat → List Char → List (List Char)
  | 0, _ => []
  | _ + 1, [] => []
  | fuel + 1, c :: cs =>
      match matchAt (c :: cs) with
      | some (m, rest) => m :: findallGo fuel rest
      | none => findallGo fuel cs

/-- `re.findall(pattern, s)` for the email pattern. -/
def findall (s : List Char) : List (List Char) := findallGo s.length s

/-- `extract_emails(text)`: `list(set(re.findall(..., text or "")))`.  The
Python set fixes no element order; the embedding keeps the deduplicated
matches (same elements, each exactly once). -/
def extract_emails (text : Option String) : List String :=
  ((findall (text.getD "").data).dedup).map (fun l => String.mk l)

/-- The email shape named by the spec: local part, `@`, a domain containing a
dot, and a TLD of two or more letters; stated over the character data of the
string. -/
def EmailShapeL (m : List Char) : Prop :=
  ∃ l d t : List Char,
    m = l ++ '@' :: (d ++ '.' :: t) ∧ l ≠ [] ∧ d ≠ [] ∧ 2 ≤ t.length ∧
    (∀ c ∈ l, isLocalChar c) ∧ (∀ c ∈ d, isDomainChar c) ∧ (∀ c ∈ t, c.isAlpha)

/-- `EmailShapeL` lifted to strings. -/
def EmailShape (m : String) : Prop := EmailShapeL m.data

/-- `str.upper()` as used on country codes: character-wise upper-casing (the
codes compared against are two ASCII letters). -/
def pyUpper (s : String) : String := String.mk (s.data.map Char.toUpper)

/-- `is_country_allowed(country)`: truthiness of
`country and country.upper() in config.ALLOWED_COUNTRIES`, with the empty
allow-set short-circuit.  `country` is `branding.get("country")`, so it may be
absent; an empty-string country is falsy in Python and rejected likewise. -/
def is_country_allowed (country : Option String) : Bool :=
  if ALLOWED_COUNTRIES.isEmpty then true
  else
    match country with
    | none => false
    | some c => !c.isEmpty && ALLOWED_COUNTRIES.contains (pyUpper c)

/-- Association-list lookup, the embedding of `d.get(k)` on a string-keyed
Python dict. -/
def lookupA {α : Type} : List (String × α) → String → Option α
  | [], _ => none
  | p :: ps, k => if p.1 = k then some p.2 else lookupA ps k

/-- Association-list update, the embedding of `d[k] = v`: replaces the
binding if the key is present, otherwise appends it. -/
def insertA {α : Type} : List (String × α) → String → α → List (String × α)
  | [], k, v => [(k, v)]
  | p :: ps, k, v => if p.1 = k then (k, v) :: ps else p :: insertA ps k v

/-- The checkpoint dictionary.  Missing keys in the Python dict and empty
mappings are indistinguishable through `.get`/`.setdefault`, which is all the
source uses, so both are the empty list here. -/
structure Checkpoint where
  positions : List (String × Option String) := []
  keywords_done : List (String × Nat) := []
  processed_channels : List String := []
deriving DecidableEq, Inhabited

/-- The checkpoint `\x7b\x7d` returned when there is no prior progress. -/
def emptyCheckpoint : Checkpoint := {}

/-- State of the checkpoint file as `load_checkpoint` can encounter it:
absent, present but unreadable at the OS level (`open` raises, e.g.
`PermissionError`), or present and readable with `parsed` the result of
`json.load` (`none` = the contents are not valid JSON). -/
inductive CheckpointFile where
  | absent
  | unreadable
  | content (parsed : Option Checkpoint)
deriving DecidableEq, Inhabited

/-- `load_checkpoint`: returns the loaded checkpoint or the raised exception,
paired with whether the corruption warning was logged.  The `except` clause
catches only `FileNotFoundError` and `json.JSONDecodeError`, so an existing
but unreadable file propagates the `open` error. -/
def load_checkpoint : CheckpointFile → Except String Checkpoint × Bool
  | CheckpointFile.absent => (Except.ok emptyCheckpoint, false)
  | CheckpointFile.unreadable => (Except.error "PermissionError", false)
  | CheckpointFile.content none => (Except.ok emptyCheckpoint, true)
  | CheckpointFile.content (some c) => (Except.ok c, false)

/-- `checkpoint.get("keywords_done", \x7b\x7d).get(keyword, 0)`. -/
def doneCount (cp : Checkpoint) (k : String) : Nat :=
  (lookupA cp.keywords_done k).getD 0

/-- `checkpoint.get("positions", \x7b\x7d).get(keyword)`: a missing entry and
an entry stored as `null` both read back as no next-page token. -/
def cursorOf (cp : Checkpoint) (k : String) : Option String :=
  (lookupA cp.positions k).join

/-- One item of a search results page: the `channelId` of its snippet when the
snippet is present (`item.get("snippet")` truthy). -/
structure SearchPage where
  items : List (Option String)
  nextPageToken : Option String
deriving DecidableEq, Inhabited

/-- One item of a `channels().list` response, with the fields the source
consumes: `channel.get("id")`, `snippet.get("title", "")`,
`snippet.get("description", "")`, `int(stats.get("subscriberCount", 0))`, and
`brandingSettings.channel.get("country")`. -/
structure ChannelDetail where
  id : Option String
  title : String
  description : String
  subscriberCount : Nat
  country : Option String
deriving DecidableEq, Inhabited

/-- A filtered candidate channel, as built in `process_keyword`. -/
structure Candidate where
  id : String
  title : String
  subs : Nat
  emails : List String
  url : String
deriving DecidableEq, Inhabited

/-- The per-keyword params dict built in `run_scraper`
(`params.copy()` plus `keyword`). -/
structure KeywordParams where
  keyword : String
  min_subs : Nat
  max_subs : Nat
  inactivity_days : Nat
deriving DecidableEq

/-- The params dict supplied by the caller of `run_scraper`. -/
structure ScanParams where
  keywords : List String
  min_subs : Nat
  max_subs : Nat
  inactivity_days : Nat
deriving DecidableEq

/-- External collaborators of a run, as total oracles: `search kw tok` is the
response to `search().list` for `kw` at page token `tok`; `details ids` the
response to `channels().list` for the joined id batch; `stop i` the value of
the `i`-th `should_stop()` call; `sheetRows` the `worksheet.get_all_values()`
read (taken after `setup_worksheet` has verified or repaired the header);
`checkpointFile` the state of the checkpoint file at load time. -/
structure ApiEnv where
  search : String → Option String → SearchPage
  details : List String → List ChannelDetail
  stop : Nat → Bool
  sheetRows : List (List String)
  checkpointFile : CheckpointFile

/-- The mutable state a run threads along: the `existing_channels` dedup set
(only membership is consumed, so a list suffices), the in-memory checkpoint
dict, the checkpoint file contents after the most recent `save_checkpoint` of
this run (`none` = not saved yet this run), the `should_stop` call counter,
and the rows appended to the worksheet so far this run. -/
structure ScrapeState where
  existing : List String
  checkpoint : Checkpoint
  savedFile : Option Checkpoint
  clock : Nat
  appended : List (List String)
deriving DecidableEq

/-- `f"https://www.youtube.com/channel/\x7bchannel_id\x7d"`. -/
def channelUrl (cid : String) : String :=
  "https://www.youtube.com/channel/" ++ cid

/-- The filter block of `process_keyword` applied to one detail record
against the dedup set `existing`: `None` ids, already-seen URLs,
out-of-range subscriber counts, disallowed countries and email-free
descriptions are all rejected; survivors become candidates. -/
def candidateOf (params : KeywordParams) (existing : List String)
    (ch : ChannelDetail) : Option Candidate :=
  match ch.id with
  | none => none
  | some cid =>
      let url := channelUrl cid
      if url ∈ existing then none
      else if ¬ (params.min_subs ≤ ch.subscriberCount ∧
                 ch.subscriberCount ≤ params.max_subs) then none
      else if ¬ is_country_allowed ch.country then none
      else
        let emails := extract_emails (some ch.description)
        if emails = [] then none
        else some { id := cid, title := ch.title, subs := ch.subscriberCount,
                    emails := emails, url := url }

/-- Structural worker for `firstOccKeys`: `seen` holds the keys already
emitted. -/
def firstOccKeysGo : List String → List String → List String
  | _, [] => []
  | seen, k :: ks =>
      if k ∈ seen then firstOccKeysGo seen ks
      else k :: firstOccKeysGo (k :: seen) ks

/-- Keys of a Python dict built by insertion: first-occurrence order. -/
def firstOccKeys (l : List String) : List String := firstOccKeysGo [] l

/-- The value a dict comprehension stores under key `i`: the last listed
candidate with that id. -/
def lastWithId (cs : List Candidate) (i : String) : Candidate :=
  ((cs.filter (fun c => c.id == i)).getLast?).getD default

/-- `\x7bc["id"]: c for c in candidate_channels\x7d.values()` — one candidate
per distinct id, keys in first-occurrence order, last write wins. -/
def dictValues (cs : List Candidate) : List Candidate :=
  (firstOccKeys (cs.map (fun c => c.id))).map (lastWithId cs)

/-- The `as_completed` loop of the append step: the stop flag is sampled once
per completed future; each surviving candidate becomes a row
`[title, ", ".join(emails), url, keyword]`, its URL enters the dedup set, and
the loop stops early once the per-keyword cap is reached.  Returns
(rows_to_append, dedup set, per-keyword count, stop-call counter). -/
def execLoop (env : ApiEnv) (kw : String) :
    List Candidate → List (List String) → List String → Nat → Nat →
    List (List String) × List String × Nat × Nat
  | [], rows, ex, added, clk => (rows, ex, added, clk)
  | c :: cs, rows, ex, added, clk =>
      if env.stop clk then (rows, ex, added, clk + 1)
      else
        let rows' := rows ++ [[c.title, String.intercalate ", " c.emails, c.url, kw]]
        let ex' := c.url :: ex
        let added' := added + 1
        if MAX_VALID_PER_KEYWORD ≤ added' then (rows', ex', added', clk + 1)
        else execLoop env kw cs rows' ex' added' (clk + 1)

/-- The `while` loop of `process_keyword`.  `pagesLeft` is
`max_pages - pages_processed` (`max_pages = 6`), `token` the current page
token, `added` the running `channels_added_for_kw`.  Each completed page
writes `positions[keyword]` and `keywords_done[keyword]` into the checkpoint
and saves it; an empty search page, the stop flag, the cap, or a missing next
page token end the loop as in the source (an empty page ends it *before* the
checkpoint update). -/
def processPages (env : ApiEnv) (params : KeywordParams) :
    Nat → Option String → Nat → ScrapeState → ScrapeState
  | 0, _, _, st => st
  | pagesLeft + 1, token, added, st =>
      if MAX_VALID_PER_KEYWORD ≤ added then st
      else if env.stop st.clock then { st with clock := st.clock + 1 }
      else
        let st1 : ScrapeState := { st with clock := st.clock + 1 }
        let page := env.search params.keyword token
        let channelIds := page.items.filterMap (fun x => x)
        if channelIds.isEmpty then st1
        else
          let dets := env.details channelIds
          let cands := dets.filterMap (candidateOf params st1.existing)
          let out := execLoop env params.keyword (dictValues cands) [] st1.existing added st1.clock
          let next := page.nextPageToken
          let cp : Checkpoint :=
            { positions := insertA st1.checkpoint.positions params.keyword next,
              keywords_done := insertA st1.checkpoint.keywords_done params.keyword out.2.2.1,
              processed_channels := st1.checkpoint.processed_channels }
          let st2 : ScrapeState :=
            { existing := out.2.1, checkpoint := cp, savedFile := some cp,
              clock := out.2.2.2, appended := st1.appended ++ out.1 }
          match next with
          | none => st2
          | some _ => processPages env params pagesLeft next out.2.2.1 st2

/-- `process_keyword`: resume the cursor and count from the checkpoint and run
the page loop.  The second component is the function's Python return value:
the source has no `return` statement, so it is always `None`. -/
def process_keyword (env : ApiEnv) (params : KeywordParams) (st : ScrapeState) :
    ScrapeState × Option Nat :=
  let token := (lookupA st.checkpoint.positions params.keyword).join
  let added := (lookupA st.checkpoint.keywords_done params.keyword).getD 0
  (processPages env params 6 token added st, none)

/-- Run-terminating faults of `run_scraper`. -/
inductive RunError where
  | typeError
deriving DecidableEq

/-- Everything observable about a finished (or crashed) run: rows appended to
the sink this session, final in-memory checkpoint, last saved checkpoint file
contents, the total in the final `DONE!` summary log line (`none` when the
run crashed before it), the fault if any, and the stop-call counter. -/
structure RunOutcome where
  appended : List (List String)
  checkpoint : Checkpoint
  savedFile : Option Checkpoint
  summary : Option Nat
  err : Option RunError
  clock : Nat
deriving DecidableEq

/-- `total_added += count`: adding `None` to an `int` raises `TypeError`. -/
def addTotal (total : Nat) (count : Option Nat) : Except RunError Nat :=
  match count with
  | some c => Except.ok (total + c)
  | none => Except.error RunError.typeError

/-- The keyword loop of `run_scraper`: stop check, cap-based skip, otherwise
`process_keyword` followed by `total_added += count` (which faults, see
`addTotal`) and, were the addition to succeed, the dedup-set snapshot into
`processed_channels` plus a save. -/
def runKeywords (env : ApiEnv) (params : ScanParams) :
    List String → Nat → ScrapeState → RunOutcome
  | [], total, st =>
      { appended := st.appended, checkpoint := st.checkpoint,
        savedFile := st.savedFile, summary := some total, err := none,
        clock := st.clock }
  | kw :: rest, total, st =>
      if env.stop st.clock then
        { appended := st.appended, checkpoint := st.checkpoint,
          savedFile := st.savedFile, summary := some total, err := none,
          clock := st.clock + 1 }
      else
        let st1 : ScrapeState := { st with clock := st.clock + 1 }
        if MAX_VALID_PER_KEYWORD ≤ doneCount st1.checkpoint kw then
          runKeywords env params rest total st1
        else
          let pk := process_keyword env
            { keyword := kw, min_subs := params.min_subs,
              max_subs := params.max_subs,
              inactivity_days := params.inactivity_days } st1
          match addTotal total pk.2 with
          | Except.error e =>
              { appended := pk.1.appended, checkpoint := pk.1.checkpoint,
                savedFile := pk.1.savedFile, summary := none, err := some e,
                clock := pk.1.clock }
          | Except.ok total' =>
              let cp : Checkpoint :=
                { pk.1.checkpoint with processed_channels := pk.1.existing }
              runKeywords env params rest total'
                { pk.1 with checkpoint := cp, savedFile := some cp }

/-- Seeding of `existing_channels` from the sheet: third column of every data
row that has at least three cells (a Python set; only membership is consumed
downstream, so the row-order list of URLs suffices). -/
def seedExisting (rows : List (List String)) : List String :=
  (rows.drop 1).filterMap (fun r => if 3 ≤ r.length then r.get? 2 else none)

/-- Third column of an appended row (`channelUrl` in the sheet schema). -/
def rowUrl (r : List String) : Option String := r.get? 2

/-- Fourth column of an appended row (`keyword` in the sheet schema). -/
def rowKeyword (r : List String) : Option String := r.get? 3

/-- `run_scraper`: seed the dedup set from the sheet, load the checkpoint
(propagating a load fault) and run the keyword loop from a fresh stop-call
counter. -/
def run_scraper (env : ApiEnv) (params : ScanParams) : Except String RunOutcome :=
  match (load_checkpoint env.checkpointFile).1 with
  | Except.error e => Except.error e
  | Except.ok cp =>
      Except.ok (runKeywords env params params.keywords 0
        { existing := seedExisting env.sheetRows, checkpoint := cp,
          savedFile := none, clock := 0, appended := [] })

/-- An environment in which every search page is empty, the stop flag is
never raised, the sheet is empty and no checkpoint file exists. -/
def emptyEnv : ApiEnv :=
  { search := fun _ _ => { items := [], nextPageToken := none },
    details := fun _ => [], stop := fun _ => false, sheetRows := [],
    checkpointFile := CheckpointFile.absent }

/-- Per-keyword params for keyword `"k"`. -/
def kwParamsK : KeywordParams :=
  { keyword := "k", min_subs := 0, max_subs := 10, inactivity_days := 90 }

/-- A state whose checkpoint holds a stored page token `"TOK"` for `"k"`. -/
def tokState : ScrapeState :=
  { existing := [], checkpoint := { positions := [("k", some "TOK")] },
    savedFile := none, clock := 0, appended := [] }

/-- Scan params for the single keyword `"k"`. -/
def scanParamsK : ScanParams :=
  { keywords := ["k"], min_subs := 0, max_subs := 10, inactivity_days := 90 }

/-- An environment whose search finds one channel `"C1"` whose details pass
every filter (in-range subscribers, allowed country, an email in the
description), over a sheet already holding one old channel row. -/
def richEnv : ApiEnv :=
  { search := fun _ _ => { items := [some "C1"], nextPageToken := none },
    details := fun _ =>
      [{ id := some "C1", title := "T", description := "hi a@b.co",
         subscriberCount := 5, country := some "US" }],
    stop := fun _ => false,
    sheetRows := [["channelTitle", "emails", "channelUrl", "keyword"],
                  ["Old", "x@y.us", "https://www.youtube.com/channel/OLD", "k0"]],
    checkpointFile := CheckpointFile.absent }

/-- The checkpoint `richEnv` leaves behind for `"k"`. -/
def richCp : Checkpoint :=
  { positions := [("k", none)], keywords_done := [("k", 1)],
    processed_channels := [] }

/-- The outcome of running `scanParamsK` against `richEnv`: one row appended,
then the run crashes on `total_added += None`. -/
def richOut : RunOutcome :=
  { appended := [["T", "a@b.co", "https://www.youtube.com/channel/C1", "k"]],
    checkpoint := richCp, savedFile := some richCp, summary := none,
    err := some RunError.typeError, clock := 3 }

/-- The outcome of running `scanParamsK` against `emptyEnv`: the first search
page is empty, so zero rows, but the run still crashes on
`total_added += None`. -/
def emptyOut : RunOutcome :=
  { appended := [], checkpoint := {}, savedFile := none, summary := none,
    err := some RunError.typeError, clock := 2 }

/-- An environment whose checkpoint already records keyword `"k"` at the
per-keyword cap. -/
def cappedCp : Checkpoint := { keywords_done := [("k", 100)] }

def cappedEnv : ApiEnv :=
  { emptyEnv with checkpointFile := CheckpointFile.content (some cappedCp) }

/-- The outcome of running `scanParamsK` against `cappedEnv`: the keyword is
skipped, the loop finishes, and the summary reports zero rows. -/
def cappedOut : RunOutcome :=
  { appended := [], checkpoint := cappedCp,
    savedFile := none, summary := some 0, err := none, clock := 1 }

/-! ### Credential rotator -/

theorem get_client_index_iterate (n idx : Nat) (hidx : idx < n) :
    ∀ k, (get_client_index n)^[k] idx = (idx + k) % n := by
  intro k
  induction k with
  | zero => simp [Nat.mod_eq_of_lt hidx]
  | succ k ih =>
      rw [Function.iterate_succ_apply', ih, get_client_index, Nat.mod_add_mod,
        Nat.add_assoc]

/-- C5: for every key pool of size `N ≥ 1` and every in-range starting cursor,
`N` consecutive `get_client` grants bring the rotator's cursor back to the
index it started with. -/
theorem get_client_roundrobin (n idx : Nat) (hn : 1 ≤ n) (hidx : idx < n) :
    (get_client_index n)^[n] idx = idx := by
  rw [get_client_index_iterate n idx hidx n, Nat.add_mod_right,
    Nat.mod_eq_of_lt hidx]

/-- Witness for `get_client_roundrobin`: a pool of 3 keys, cursor at 1. -/
theorem get_client_roundrobin_witness : (get_client_index 3)^[3] 1 = 1 :=
  get_client_roundrobin 3 1 (by decide) (by decide)

theorem apiRequestGo_succ_eq {α : Type} (f : Nat → Except PyExc α)
    (n r t idx : Nat) (last : Option PyExc) :
    apiRequestGo f n (r + 1) t idx last =
      match f t with
      | Except.ok a => (Except.ok a, [idx])
      | Except.error (PyExc.http s) =>
          if isQuotaStatus s then
            ((apiRequestGo f n r (t + 1) (get_client_index n idx) (some (PyExc.http s))).1,
             idx :: (apiRequestGo f n r (t + 1) (get_client_index n idx) (some (PyExc.http s))).2)
          else (Except.error (PyExc.http s), [idx])
      | Except.error (PyExc.other m) =>
          ((apiRequestGo f n r (t + 1) (get_client_index n idx) (some (PyExc.other m))).1,
           idx :: (apiRequestGo f n r (t + 1) (get_client_index n idx) (some (PyExc.other m))).2) := rfl

theorem apiRequestGo_trace_length {α : Type} (f : Nat → Except PyExc α) (n : Nat) :
    ∀ r t idx last, ((apiRequestGo f n r t idx last).2).length ≤ r := by
  intro r
  induction r with
  | zero => intro t idx last; simp [apiRequestGo]
  | succ r ih =>
      intro t idx last
      simp only [apiRequestGo]
      cases hf : f t with
      | ok a => simp
      | error e =>
          cases e with
          | http s =>
              by_cases hq : isQuotaStatus s
              · simpa [hq] using ih (t + 1) (get_client_index n idx) (some (PyExc.http s))
              · simp [hq]
          | other m =>
              simpa using ih (t + 1) (get_client_index n idx) (some (PyExc.other m))

theorem apiRequestGo_all_quota {α : Type} (f : Nat → Except PyExc α) (n : Nat) :
    ∀ r t idx last, 1 ≤ r →
      (∀ u, u < r → ∃ s, isQuotaStatus s = true ∧ f (t + u) = Except.error (PyExc.http s)) →
      ∃ s, isQuotaStatus s = true ∧ f (t + (r - 1)) = Except.error (PyExc.http s) ∧
        (apiRequestGo f n r t idx last).1 = Except.error (PyExc.http s) := by
  intro r
  induction r with
  | zero => intro t idx last h; omega
  | succ r ih =>
      intro t idx last _ hq
      cases r with
      | zero =>
          obtain ⟨s, hs, hf⟩ := hq 0 (by omega)
          rw [Nat.add_zero] at hf
          exact ⟨s, hs, by simpa using hf, by simp [apiRequestGo, hf, hs]⟩
      | succ r' =>
          obtain ⟨s0, hs0, hf0⟩ := hq 0 (by omega)
          rw [Nat.add_zero] at hf0
          obtain ⟨s, hs, hf, hres⟩ :=
            ih (t + 1) (get_client_index n idx) (some (PyExc.http s0)) (by omega)
              (fun u hu => by
                have h2 := hq (u + 1) (by omega)
                rwa [show t + (u + 1) = t + 1 + u by omega] at h2)
          refine ⟨s, hs, ?_, ?_⟩
          · rwa [show t + 1 + (r' + 1 - 1) = t + (r' + 1 + 1 - 1) by omega] at hf
          · rw [apiRequestGo_succ_eq, hf0]
            simpa [hs0] using hres

theorem apiRequestGo_success {α : Type} (f : Nat → Except PyExc α) (n : Nat) (a : α) :
    ∀ k r t idx last, k < r →
      (∀ u, u < k → ∃ s, isQuotaStatus s = true ∧ f (t + u) = Except.error (PyExc.http s)) →
      f (t + k) = Except.ok a →
      (apiRequestGo f n r t idx last).1 = Except.ok a := by
  intro k
  induction k with
  | zero =>
      intro r t idx last hr _ hf
      cases r with
      | zero => omega
      | succ r =>
          rw [Nat.add_zero] at hf
          simp [apiRequestGo, hf]
  | succ k ih =>
      intro r t idx last hr hq hf
      cases r with
      | zero => omega
      | succ r =>
          obtain ⟨s0, hs0, hf0⟩ := hq 0 (by omega)
          rw [Nat.add_zero] at hf0
          have hrec :=
            ih r (t + 1) (get_client_index n idx) (some (PyExc.http s0)) (by omega)
              (fun u hu => by
                have h2 := hq (u + 1) (by omega)
                rwa [show t + (u + 1) = t + 1 + u by omega] at h2)
              (by rwa [show t + 1 + k = t + (k + 1) by omega])
          simp [apiRequestGo, hf0, hs0, hrec]

/-- C4: on quota-class failures (HTTP 403/429) `api_request` rotates to the
next key and retries, making at most `N` grants for a pool of size `N`; if
every attempt fails with a quota-class error it raises the last such error;
if some attempt succeeds after only quota-class failures, the successful
result is returned to the caller unchanged; and in particular a quota-class
failure followed by a success yields exactly two attempts, the second on the
rotated key, with the successful result returned. -/
theorem api_request_quota_policy {α : Type} (f : Nat → Except PyExc α) (n idx : Nat)
    (hn : 1 ≤ n) :
    ((api_request f n idx).2.length ≤ n)
    ∧ ((∀ u, u < n → ∃ s, isQuotaStatus s = true ∧ f u = Except.error (PyExc.http s)) →
        ∃ s, isQuotaStatus s = true ∧ f (n - 1) = Except.error (PyExc.http s) ∧
          (api_request f n idx).1 = Except.error (PyExc.http s))
    ∧ (∀ k a, k < n →
        (∀ u, u < k → ∃ s, isQuotaStatus s = true ∧ f u = Except.error (PyExc.http s)) →
        f k = Except.ok a → (api_request f n idx).1 = Except.ok a)
    ∧ (∀ s a, 2 ≤ n → isQuotaStatus s = true →
        f 0 = Except.error (PyExc.http s) → f 1 = Except.ok a →
        api_request f n idx = (Except.ok a, [idx, get_client_index n idx])) := by
  refine ⟨apiRequestGo_trace_length f n n 0 idx none, ?_, ?_, ?_⟩
  · intro hq
    have := apiRequestGo_all_quota f n n 0 idx none hn
      (fun u hu => by simpa using hq u hu)
    simpa using this
  · intro k a hk hq hf
    exact apiRequestGo_success f n a k n 0 idx none hk
      (fun u hu => by simpa using hq u hu) (by simpa using hf)
  · intro s a h2 hs hf0 hf1
    obtain ⟨m, rfl⟩ : ∃ m, n = m + 2 := ⟨n - 2, by omega⟩
    simp [api_request, apiRequestGo, hf0, hf1, hs]

/-- Witness for `api_request_quota_policy`: pool of 2 keys at cursor 0, a
403 on the first attempt, success on the second. -/
theorem api_request_quota_policy_witness :
    api_request (fun t => if t = 0 then Except.error (PyExc.http 403) else Except.ok 7) 2 0
      = (Except.ok 7, [0, get_client_index 2 0]) :=
  (api_request_quota_policy _ 2 0 (by decide)).2.2.2 403 7 (by decide) (by decide) rfl rfl

/-- C3 fails on the code: with a pool of 2 keys at cursor 0, a generic
(non-HTTP) failure on the first attempt is retried on key index 1 — the
*next* key, not the same one (`get_client` rotates on every grant) — and a
non-quota HTTP error (status 500) is raised at once, with only one grant
made, rather than being retried. -/
theorem api_request_same_key_cex :
    (api_request (fun t => if t = 0 then Except.error (PyExc.other "boom") else Except.ok 42) 2 0
       = (Except.ok 42, [0, 1]))
    ∧ ([0, 1] ≠ ([0, 0] : List Nat))
    ∧ (api_request (fun _ => (Except.error (PyExc.http 500) : Except PyExc Nat)) 2 0
       = (Except.error (PyExc.http 500), [0])) :=
  ⟨rfl, by decide, rfl⟩

/-- C3 amended: a failure that is not an `HttpError` is retried after the
backoff, boundedly (at most one grant per key in the pool), but the retry
runs against the next key in rotation — `get_client` advances the cursor on
every grant — not against the same key; and an `HttpError` whose status is
not 403/429 is re-raised immediately without any retry. -/
theorem api_request_transient_policy {α : Type} (f : Nat → Except PyExc α) (n idx : Nat) :
    ((api_request f n idx).2.length ≤ n)
    ∧ (∀ m a, 2 ≤ n → idx < n →
        f 0 = Except.error (PyExc.other m) → f 1 = Except.ok a →
        api_request f n idx = (Except.ok a, [idx, get_client_index n idx])
          ∧ get_client_index n idx ≠ idx)
    ∧ (∀ s, 1 ≤ n → isQuotaStatus s = false →
        f 0 = Except.error (PyExc.http s) →
        api_request f n idx = (Except.error (PyExc.http s), [idx])) := by
  refine ⟨apiRequestGo_trace_length f n n 0 idx none, ?_, ?_⟩
  · intro m a h2 hidx hf0 hf1
    constructor
    · obtain ⟨p, rfl⟩ : ∃ p, n = p + 2 := ⟨n - 2, by omega⟩
      simp [api_request, apiRequestGo, hf0, hf1]
    · unfold get_client_index
      rcases Nat.lt_or_ge (idx + 1) n with h | h
      · rw [Nat.mod_eq_of_lt h]; omega
      · have he : idx + 1 = n := by omega
        rw [he, Nat.mod_self]; omega
  · intro s h1 hs hf0
    obtain ⟨p, rfl⟩ : ∃ p, n = p + 1 := ⟨n - 1, by omega⟩
    simp [api_request, apiRequestGo, hf0, hs]

/-- Witness for `api_request_transient_policy`: pool of 2 keys at cursor 0,
generic failure then success; the retry key differs from the first. -/
theorem api_request_transient_policy_witness :
    (api_request (fun t => if t = 0 then Except.error (PyExc.other "x") else Except.ok 5) 2 0
       = (Except.ok 5, [0, get_client_index 2 0]))
    ∧ get_client_index 2 0 ≠ 0 :=
  (api_request_transient_policy _ 2 0).2.1 "x" 5 (by decide) (by decide) rfl rfl

/-! ### Email extractor -/

theorem domMatchAt_spec {dom pre tld leftover : List Char} {p : Nat}
    (h : domMatchAt dom p = some (pre, tld, leftover)) :
    dom.get? p = some '.' ∧ pre = dom.take p ∧ tld = tldAt dom p ∧
    2 ≤ tld.length ∧ leftover = (dom.drop (p + 1)).dropWhile Char.isAlpha := by
  unfold domMatchAt at h
  split at h
  · rename_i hc
    simp only [Option.some.injEq, Prod.mk.injEq] at h
    obtain ⟨hpre, htld, hleft⟩ := h
    exact ⟨hc.1, hpre.symm, htld.symm, htld ▸ hc.2, hleft.symm⟩
  · exact absurd h (by simp)

theorem domSplitGo_spec {dom pre tld leftover : List Char} :
    ∀ {n : Nat}, domSplitGo dom n = some (pre, tld, leftover) →
      ∃ p, 1 ≤ p ∧ dom.get? p = some '.' ∧ pre = dom.take p ∧
        tld = tldAt dom p ∧ 2 ≤ tld.length ∧
        leftover = (dom.drop (p + 1)).dropWhile Char.isAlpha := by
  intro n
  induction n with
  | zero => intro h; simp [domSplitGo] at h
  | succ n ih =>
      intro h
      simp only [domSplitGo] at h
      cases hm : domMatchAt dom (n + 1) with
      | some r =>
          rw [hm] at h
          simp only [Option.some.injEq] at h
          subst h
          obtain ⟨h1, h2, h3, h4, h5⟩ := domMatchAt_spec hm
          exact ⟨n + 1, by omega, h1, h2, h3, h4, h5⟩
      | none =>
          rw [hm] at h
          exact ih h

theorem matchAt_spec {s m rest : List Char} (h : matchAt s = some (m, rest)) :
    s = m ++ rest ∧ EmailShapeL m := by
  unfold matchAt at h
  cases hdw : s.dropWhile isLocalChar with
  | nil => rw [hdw] at h; simp at h
  | cons a r2 =>
      rw [hdw] at h
      dsimp only at h
      by_cases hcond : s.takeWhile isLocalChar = [] ∨ a ≠ '@'
      · rw [if_pos hcond] at h; simp at h
      · rw [if_neg hcond] at h
        push_neg at hcond
        obtain ⟨hloc, ha⟩ := hcond
        subst ha
        cases hds : domSplit (r2.takeWhile isDomainChar) with
        | none => rw [hds] at h; simp at h
        | some trip =>
            obtain ⟨pre, tld, leftover⟩ := trip
            rw [hds] at h
            simp only [Option.some.injEq, Prod.mk.injEq] at h
            obtain ⟨hm, hrest⟩ := h
            unfold domSplit at hds
            obtain ⟨p, hp1, hpdot, hpre, htld, htldlen, hleft⟩ := domSplitGo_spec hds
            obtain ⟨hplt, hget⟩ := List.get?_eq_some.mp hpdot
            have hgp : (r2.takeWhile isDomainChar)[p] = '.' := by simpa using hget
            have e1 : s.takeWhile isLocalChar ++ ('@' :: r2) = s := by
              rw [← hdw]; exact List.takeWhile_append_dropWhile isLocalChar s
            have e2 : r2.takeWhile isDomainChar ++ r2.dropWhile isDomainChar = r2 :=
              List.takeWhile_append_dropWhile isDomainChar r2
            have e3 : (r2.takeWhile isDomainChar).take p ++ (r2.takeWhile isDomainChar).drop p
                = r2.takeWhile isDomainChar := List.take_append_drop p _
            have e4 : (r2.takeWhile isDomainChar).drop p
                = '.' :: (r2.takeWhile isDomainChar).drop (p + 1) := by
              rw [List.drop_eq_getElem_cons hplt, hgp]
            have e5 : tldAt (r2.takeWhile isDomainChar) p
                  ++ ((r2.takeWhile isDomainChar).drop (p + 1)).dropWhile Char.isAlpha
                = (r2.takeWhile isDomainChar).drop (p + 1) :=
              List.takeWhile_append_dropWhile Char.isAlpha _
            have hprene : pre ≠ [] := by
              have hlen : pre.length = p := by rw [hpre, List.length_take]; omega
              intro hnil
              rw [hnil] at hlen
              simp at hlen
              omega
            have hpremem : ∀ c ∈ pre, isDomainChar c := by
              intro c hc
              rw [hpre] at hc
              exact List.mem_takeWhile_imp (List.take_subset p _ hc)
            have htldmem : ∀ c ∈ tld, Char.isAlpha c := by
              intro c hc
              rw [htld] at hc
              exact List.mem_takeWhile_imp hc
            constructor
            · have big : r2 = pre ++ ('.' :: (tld ++ (leftover ++ r2.dropWhile isDomainChar))) := by
                rw [hpre, htld, hleft]
                conv_lhs => rw [← e2, ← e3, e4, ← e5]
                simp [List.append_assoc]
              rw [← e1, big, ← hm, ← hrest]
              simp [List.append_assoc]
            · exact ⟨s.takeWhile isLocalChar, pre, tld, hm.symm, hloc, hprene, htldlen,
                fun c hc => List.mem_takeWhile_imp hc, hpremem, htldmem⟩

theorem matchAt_consumes {s m rest : List Char} (h : matchAt s = some (m, rest)) :
    rest.length < s.length := by
  obtain ⟨he, hshape⟩ := matchAt_spec h
  obtain ⟨l, d, t, hm, hl, -⟩ := hshape
  rw [he, List.length_append]
  have hml : 0 < m.length := by
    rw [hm]
    cases l with
    | nil => exact absurd rfl hl
    | cons x xs => simp
  omega

theorem findallGo_sound :
    ∀ (fuel : Nat) (s m : List Char), m ∈ findallGo fuel s →
      EmailShapeL m ∧ ∃ u v : List Char, u ++ (m ++ v) = s := by
  intro fuel
  induction fuel with
  | zero => intro s m hm; simp [findallGo] at hm
  | succ fuel ih =>
      intro s m hm
      cases s with
      | nil => simp [findallGo] at hm
      | cons c cs =>
          simp only [findallGo] at hm
          cases hma : matchAt (c :: cs) with
          | some pr =>
              obtain ⟨m0, rest⟩ := pr
              rw [hma] at hm
              simp only [List.mem_cons] at hm
              rcases hm with rfl | hm
              · obtain ⟨he, hshape⟩ := matchAt_spec hma
                exact ⟨hshape, [], rest, by simp [he.symm]⟩
              · obtain ⟨hshape, u, v, huv⟩ := ih rest m hm
                obtain ⟨he, -⟩ := matchAt_spec hma
                refine ⟨hshape, m0 ++ u, v, ?_⟩
                rw [List.append_assoc, huv, ← he]
          | none =>
              rw [hma] at hm
              obtain ⟨hshape, u, v, huv⟩ := ih cs m hm
              exact ⟨hshape, c :: u, v, by simp [huv]⟩

theorem findallGo_fuel :
    ∀ (f1 f2 : Nat) (s : List Char), s.length ≤ f1 → s.length ≤ f2 →
      findallGo f1 s = findallGo f2 s := by
  intro f1
  induction f1 with
  | zero =>
      intro f2 s h1 h2
      have hs : s = [] := List.length_eq_zero.mp (by omega)
      subst hs
      cases f2 <;> simp [findallGo]
  | succ f1 ih =>
      intro f2 s h1 h2
      cases s with
      | nil => cases f2 <;> simp [findallGo]
      | cons c cs =>
          cases f2 with
          | zero => simp at h2
          | succ f2 =>
              simp only [findallGo]
              cases hma : matchAt (c :: cs) with
              | some pr =>
                  obtain ⟨m0, rest⟩ := pr
                  have hlt := matchAt_consumes hma
                  simp only [List.length_cons] at h1 h2 hlt
                  dsimp only
                  rw [ih f2 rest (by omega) (by omega)]
              | none =>
                  simp only [List.length_cons] at h1 h2
                  dsimp only
                  exact ih f2 cs (by omega) (by omega)

/-- C9: for every input, including the empty string and an absent (`None`)
input, `extract_emails` returns only substrings of the input matching the
email shape (local part, `@`, domain with a dot, 2-or-more-letter TLD), with
no duplicate elements regardless of repeated occurrences, and the empty
collection on empty or absent input. -/
theorem extract_emails_spec (text : Option String) :
    (∀ m ∈ extract_emails text,
        EmailShape m ∧ ∃ u v : List Char, u ++ (m.data ++ v) = (text.getD "").data)
    ∧ (extract_emails text).Nodup
    ∧ extract_emails none = [] ∧ extract_emails (some "") = [] := by
  refine ⟨?_, ?_, rfl, rfl⟩
  · intro m hm
    unfold extract_emails at hm
    obtain ⟨lc, hlc, rfl⟩ := List.mem_map.mp hm
    have hfl := List.mem_dedup.mp hlc
    exact findallGo_sound _ _ _ hfl
  · unfold extract_emails
    exact List.Nodup.map (fun a b hab => congrArg String.data hab) (List.nodup_dedup _)

/-- Witness for `extract_emails_spec` at the input `" a@b.co!"` and its
extracted address `"a@b.co"`. -/
theorem extract_emails_spec_witness :
    EmailShape "a@b.co"
    ∧ ∃ u v : List Char,
        u ++ (("a@b.co" : String).data ++ v) = (" a@b.co!" : String).data := by
  have h := (extract_emails_spec (some " a@b.co!")).1 "a@b.co" (by decide)
  exact h

/-! ### Checkpoint store -/

theorem lookupA_insertA_self {α : Type} (l : List (String × α)) (k : String) (v : α) :
    lookupA (insertA l k v) k = some v := by
  induction l with
  | nil => simp [insertA, lookupA]
  | cons p ps ih =>
      by_cases hp : p.1 = k
      · simp [insertA, hp, lookupA]
      · simp [insertA, hp, lookupA, ih]

theorem lookupA_insertA_ne {α : Type} (l : List (String × α)) (k k' : String) (v : α)
    (h : k' ≠ k) : lookupA (insertA l k v) k' = lookupA l k' := by
  have hkk : ¬ (k = k') := fun he => h he.symm
  induction l with
  | nil => simp [insertA, lookupA, hkk]
  | cons p ps ih =>
      by_cases hp : p.1 = k
      · have hpk : ¬ (p.1 = k') := by rw [hp]; exact hkk
        simp [insertA, hp, lookupA, hkk, hpk]
      · by_cases hpk : p.1 = k'
        · simp [insertA, hp, lookupA, hpk, h]
        · simp [insertA, hp, lookupA, hpk, ih]

/-- C8 fails on the code: a checkpoint file that exists but cannot be read at
the OS level raises to the caller — `open` fails with an error such as
`PermissionError`, which the `except (FileNotFoundError, json.JSONDecodeError)`
clause does not catch — instead of yielding the empty checkpoint. -/
theorem load_checkpoint_unreadable_cex :
    load_checkpoint CheckpointFile.unreadable = (Except.error "PermissionError", false)
    ∧ ¬ ∃ c, (load_checkpoint CheckpointFile.unreadable).1 = Except.ok c := by
  refine ⟨rfl, ?_⟩
  rintro ⟨c, hc⟩
  simp [load_checkpoint] at hc

/-- C8 amended: on a missing file `load_checkpoint` returns the empty
checkpoint (Python's `\x7b\x7d`, whose `positions` and `keywords_done` read
back empty) with no error or warning; on a readable but corrupt file it logs
the warning and returns the empty checkpoint; on a readable well-formed file
it returns its contents; but a file that exists and is OS-unreadable raises
to the caller. -/
theorem load_checkpoint_behavior :
    (load_checkpoint CheckpointFile.absent = (Except.ok emptyCheckpoint, false))
    ∧ (load_checkpoint (CheckpointFile.content none) = (Except.ok emptyCheckpoint, true))
    ∧ (∀ c, load_checkpoint (CheckpointFile.content (some c)) = (Except.ok c, false))
    ∧ (load_checkpoint CheckpointFile.unreadable = (Except.error "PermissionError", false)) :=
  ⟨rfl, rfl, fun _ => rfl, rfl⟩

/-- Witness for `load_checkpoint_behavior` at the empty checkpoint. -/
theorem load_checkpoint_behavior_witness :
    load_checkpoint (CheckpointFile.content (some emptyCheckpoint))
      = (Except.ok emptyCheckpoint, false) :=
  load_checkpoint_behavior.2.2.1 emptyCheckpoint

/-! ### Keyword processor: empty first page -/

theorem process_keyword_zero_hits (env : ApiEnv) (params : KeywordParams)
    (st : ScrapeState)
    (hstop : env.stop st.clock = false)
    (hdone : doneCount st.checkpoint params.keyword < MAX_VALID_PER_KEYWORD)
    (hsearch : (env.search params.keyword (cursorOf st.checkpoint params.keyword)).items = []) :
    process_keyword env params st = ({ st with clock := st.clock + 1 }, none) := by
  show (processPages env params 6 (cursorOf st.checkpoint params.keyword)
      (doneCount st.checkpoint params.keyword) st, none) = _
  simp only [processPages]
  rw [if_neg (by omega)]
  simp [hstop, hsearch, List.filterMap]

/-- C2 amended: when the search for a keyword returns zero hits on the first
fetched page, `process_keyword` appends zero rows and finishes the keyword,
but the loop breaks *before* the checkpoint update: the in-memory checkpoint,
its cursor entry for the keyword, and the checkpoint file are all left
exactly as they were — in particular a keyword with no stored cursor still
has no next-page token, while a resumed keyword keeps its previous token
instead of being marked exhausted. -/
theorem process_keyword_zero_hits_frame (env : ApiEnv) (params : KeywordParams)
    (st : ScrapeState)
    (hstop : env.stop st.clock = false)
    (hdone : doneCount st.checkpoint params.keyword < MAX_VALID_PER_KEYWORD)
    (hsearch : (env.search params.keyword (cursorOf st.checkpoint params.keyword)).items = []) :
    (process_keyword env params st).1.appended = st.appended
    ∧ (process_keyword env params st).1.checkpoint = st.checkpoint
    ∧ (process_keyword env params st).1.savedFile = st.savedFile
    ∧ cursorOf (process_keyword env params st).1.checkpoint params.keyword
        = cursorOf st.checkpoint params.keyword := by
  rw [process_keyword_zero_hits env params st hstop hdone hsearch]
  simp

/-- Witness for `process_keyword_zero_hits_frame`: keyword `"k"` with a
stored cursor, an empty first page, no stop. -/
theorem process_keyword_zero_hits_frame_witness :
    (process_keyword emptyEnv kwParamsK tokState).1.appended = tokState.appended
    ∧ (process_keyword emptyEnv kwParamsK tokState).1.checkpoint = tokState.checkpoint
    ∧ (process_keyword emptyEnv kwParamsK tokState).1.savedFile = tokState.savedFile
    ∧ cursorOf (process_keyword emptyEnv kwParamsK tokState).1.checkpoint kwParamsK.keyword
        = cursorOf tokState.checkpoint kwParamsK.keyword :=
  process_keyword_zero_hits_frame emptyEnv kwParamsK tokState rfl (by decide) rfl

/-- C2 fails on the code as stated: with a stored cursor `"TOK"` for keyword
`"k"` and an empty first page, the saved cursor after `process_keyword` is
still the page token `"TOK"`, not the exhausted no-next-page state. -/
theorem process_keyword_zero_hits_cex :
    cursorOf (process_keyword emptyEnv kwParamsK tokState).1.checkpoint "k" = some "TOK"
    ∧ (process_keyword emptyEnv kwParamsK tokState).1.appended = [] := by
  constructor <;> rfl

/-! ### Scan orchestrator: the missing return value -/

theorem runKeywords_first_processed (env : ApiEnv) (params : ScanParams) :
    ∀ (pre : List String) (k : String) (rest : List String) (total : Nat)
      (st : ScrapeState),
      (∀ j, j ≤ pre.length → env.stop (st.clock + j) = false) →
      (∀ k' ∈ pre, MAX_VALID_PER_KEYWORD ≤ doneCount st.checkpoint k') →
      doneCount st.checkpoint k < MAX_VALID_PER_KEYWORD →
      (runKeywords env params (pre ++ k :: rest) total st).err = some RunError.typeError
      ∧ (runKeywords env params (pre ++ k :: rest) total st).summary = none := by
  intro pre
  induction pre with
  | nil =>
      intro k rest total st hstop hskip hproc
      have h0 : env.stop st.clock = false := by simpa using hstop 0 (by omega)
      simp only [List.nil_append, runKeywords]
      rw [h0]
      simp only [Bool.false_eq_true, if_false]
      rw [if_neg (by simpa using Nat.not_le.mpr hproc)]
      simp [process_keyword, addTotal]
  | cons p pre ih =>
      intro k rest total st hstop hskip hproc
      have h0 : env.stop st.clock = false := by simpa using hstop 0 (by omega)
      simp only [List.cons_append, runKeywords]
      rw [h0]
      simp only [Bool.false_eq_true, if_false]
      rw [if_pos (by simpa using hskip p (List.mem_cons_self p pre))]
      exact ih k rest total { st with clock := st.clock + 1 }
        (fun j hj => by
          have h2 := hstop (j + 1) (by simpa using Nat.succ_le_succ hj)
          have he : st.clock + (j + 1) = st.clock + 1 + j := by omega
          rw [he] at h2
          exact h2)
        (fun k' hk' => hskip k' (List.mem_cons_of_mem p hk'))
        hproc

/-- C1 fails on the code: `process_keyword` has no `return` statement, so it
returns `None`; as soon as one keyword is actually processed (not skipped as
already done, and not preceded by a stop), `run_scraper` evaluates
`total_added += count` with `count = None`, which raises `TypeError` — the
run ends in error and the final `DONE!` summary line is never emitted. -/
theorem run_scraper_crashes_before_summary (env : ApiEnv) (params : ScanParams)
    (cp : Checkpoint) (pre : List String) (k : String) (rest : List String)
    (out : RunOutcome)
    (hload : (load_checkpoint env.checkpointFile).1 = Except.ok cp)
    (hkws : params.keywords = pre ++ k :: rest)
    (hstop : ∀ j, j ≤ pre.length → env.stop j = false)
    (hskip : ∀ k' ∈ pre, MAX_VALID_PER_KEYWORD ≤ doneCount cp k')
    (hproc : doneCount cp k < MAX_VALID_PER_KEYWORD)
    (hrun : run_scraper env params = Except.ok out) :
    out.err = some RunError.typeError ∧ out.summary = none := by
  unfold run_scraper at hrun
  rw [hload] at hrun
  simp only [Except.ok.injEq] at hrun
  subst hrun
  rw [hkws]
  exact runKeywords_first_processed env params pre k rest 0
    { existing := seedExisting env.sheetRows, checkpoint := cp,
      savedFile := none, clock := 0, appended := [] }
    (fun j hj => by simpa using hstop j hj) hskip hproc

/-- Witness for `run_scraper_crashes_before_summary`: one fresh keyword,
empty search results, stop never raised — the run still crashes before the
summary. -/
theorem run_scraper_crashes_before_summary_witness :
    emptyOut.err = some RunError.typeError ∧ emptyOut.summary = none :=
  run_scraper_crashes_before_summary emptyEnv scanParamsK emptyCheckpoint [] "k" []
    emptyOut rfl rfl (fun _ _ => rfl) (by simp) (by decide) rfl

/-! ### Resume idempotence for capped keywords -/

theorem execLoop_rows (env : ApiEnv) (kw : String) :
    ∀ (cands : List Candidate) (rows : List (List String)) (ex : List String)
      (added clk : Nat),
      ∀ r ∈ (execLoop env kw cands rows ex added clk).1,
        r ∈ rows ∨ rowKeyword r = some kw := by
  intro cands
  induction cands with
  | nil => intro rows ex added clk r hr; exact Or.inl hr
  | cons c cs ih =>
      intro rows ex added clk r hr
      simp only [execLoop] at hr
      by_cases h1 : env.stop clk = true
      · rw [if_pos h1] at hr; exact Or.inl hr
      rw [if_neg h1] at hr
      by_cases h2 : MAX_VALID_PER_KEYWORD ≤ added + 1
      · rw [if_pos h2] at hr
        rcases List.mem_append.mp hr with h | h
        · exact Or.inl h
        · simp only [List.mem_singleton] at h
          subst h
          exact Or.inr rfl
      · rw [if_neg h2] at hr
        rcases ih _ _ _ _ r hr with h | h
        · rcases List.mem_append.mp h with h' | h'
          · exact Or.inl h'
          · simp only [List.mem_singleton] at h'
            subst h'
            exact Or.inr rfl
        · exact Or.inr h

theorem processPages_frame_other (env : ApiEnv) (params : KeywordParams) (K : String)
    (hK : K ≠ params.keyword) :
    ∀ (fuel : Nat) (token : Option String) (added : Nat) (st : ScrapeState),
      lookupA (processPages env params fuel token added st).checkpoint.positions K
          = lookupA st.checkpoint.positions K
      ∧ lookupA (processPages env params fuel token added st).checkpoint.keywords_done K
          = lookupA st.checkpoint.keywords_done K
      ∧ (∀ r ∈ (processPages env params fuel token added st).appended,
          r ∈ st.appended ∨ rowKeyword r = some params.keyword) := by
  intro fuel
  induction fuel with
  | zero => intro token added st; exact ⟨rfl, rfl, fun r hr => Or.inl hr⟩
  | succ fuel ih =>
      intro token added st
      simp only [processPages]
      by_cases h1 : MAX_VALID_PER_KEYWORD ≤ added
      · rw [if_pos h1]; exact ⟨rfl, rfl, fun r hr => Or.inl hr⟩
      rw [if_neg h1]
      by_cases h2 : env.stop st.clock = true
      · rw [if_pos h2]; exact ⟨rfl, rfl, fun r hr => Or.inl hr⟩
      rw [if_neg h2]
      by_cases h3 : ((env.search params.keyword token).items.filterMap (fun x => x)).isEmpty
        = true
      · rw [if_pos h3]; exact ⟨rfl, rfl, fun r hr => Or.inl hr⟩
      rw [if_neg h3]
      cases h4 : (env.search params.keyword token).nextPageToken with
      | none =>
          dsimp only
          refine ⟨lookupA_insertA_ne _ _ _ _ hK, lookupA_insertA_ne _ _ _ _ hK, ?_⟩
          intro r hr
          rcases List.mem_append.mp hr with h | h
          · exact Or.inl h
          · exact (execLoop_rows env params.keyword _ _ _ _ _ r h).resolve_left
              (fun hin => absurd hin (List.not_mem_nil r)) |> Or.inr
      | some tk =>
          dsimp only
          obtain ⟨ih1, ih2, ih3⟩ := ih tk
            (execLoop env params.keyword
              (dictValues (((env.search params.keyword token).items.filterMap (fun x => x)
                |> env.details).filterMap (candidateOf params st.existing)))
              [] st.existing added (st.clock + 1)).2.2.1
            { existing := _, checkpoint := _, savedFile := _, clock := _, appended := _ }
          refine ⟨?_, ?_, ?_⟩
          · rw [ih1]; exact lookupA_insertA_ne _ _ _ _ hK
          · rw [ih2]; exact lookupA_insertA_ne _ _ _ _ hK
          · intro r hr
            rcases ih3 r hr with h | h
            · rcases List.mem_append.mp h with h' | h'
              · exact Or.inl h'
              · exact (execLoop_rows env params.keyword _ _ _ _ _ r h').resolve_left
                  (fun hin => absurd hin (List.not_mem_nil r)) |> Or.inr
            · exact Or.inr h

theorem runKeywords_frame (env : ApiEnv) (params : ScanParams) (K : String) :
    ∀ (kws : List String) (total : Nat) (st : ScrapeState),
      MAX_VALID_PER_KEYWORD ≤ doneCount st.checkpoint K →
      lookupA (runKeywords env params kws total st).checkpoint.positions K
          = lookupA st.checkpoint.positions K
      ∧ lookupA (runKeywords env params kws total st).checkpoint.keywords_done K
          = lookupA st.checkpoint.keywords_done K
      ∧ (∀ r ∈ (runKeywords env params kws total st).appended,
          r ∈ st.appended ∨ rowKeyword r ≠ some K) := by
  intro kws
  induction kws with
  | nil => intro total st _; exact ⟨rfl, rfl, fun r hr => Or.inl hr⟩
  | cons kw rest ih =>
      intro total st hcap
      simp only [runKeywords]
      by_cases h1 : env.stop st.clock = true
      · rw [if_pos h1]; exact ⟨rfl, rfl, fun r hr => Or.inl hr⟩
      rw [if_neg h1]
      by_cases h2 : MAX_VALID_PER_KEYWORD
          ≤ doneCount ({ st with clock := st.clock + 1 } : ScrapeState).checkpoint kw
      · rw [if_pos h2]
        exact ih total { st with clock := st.clock + 1 } hcap
      · rw [if_neg h2]
        have hkK : K ≠ kw := fun he => h2 (he ▸ hcap)
        dsimp only [process_keyword, addTotal]
        obtain ⟨f1, f2, f3⟩ := processPages_frame_other env
          { keyword := kw, min_subs := params.min_subs, max_subs := params.max_subs,
            inactivity_days := params.inactivity_days } K hkK 6
          ((lookupA st.checkpoint.positions kw).join)
          ((lookupA st.checkpoint.keywords_done kw).getD 0)
          { st with clock := st.clock + 1 }
        refine ⟨f1, f2, ?_⟩
        intro r hr
        rcases f3 r hr with h | h
        · exact Or.inl h
        · refine Or.inr ?_
          rw [h]
          intro he
          injection he with he'
          exact hkK he'.symm

/-- C7: if a keyword `K` already stands at or above the per-keyword cap in
the loaded checkpoint, the scan appends no row for `K` and leaves both its
saved pagination cursor and its done-count entry unchanged. -/
theorem run_scraper_skips_capped (env : ApiEnv) (params : ScanParams) (K : String)
    (cp : Checkpoint) (out : RunOutcome)
    (hload : (load_checkpoint env.checkpointFile).1 = Except.ok cp)
    (hcap : MAX_VALID_PER_KEYWORD ≤ doneCount cp K)
    (hrun : run_scraper env params = Except.ok out) :
    (∀ r ∈ out.appended, rowKeyword r ≠ some K)
    ∧ lookupA out.checkpoint.positions K = lookupA cp.positions K
    ∧ lookupA out.checkpoint.keywords_done K = lookupA cp.keywords_done K := by
  unfold run_scraper at hrun
  rw [hload] at hrun
  simp only [Except.ok.injEq] at hrun
  subst hrun
  obtain ⟨f1, f2, f3⟩ := runKeywords_frame env params K params.keywords 0
    { existing := seedExisting env.sheetRows, checkpoint := cp,
      savedFile := none, clock := 0, appended := [] } hcap
  refine ⟨?_, f1, f2⟩
  intro r hr
  rcases f3 r hr with h | h
  · exact absurd h (List.not_mem_nil r)
  · exact h

/-- Witness for `run_scraper_skips_capped`: keyword `"k"` already holds 100
rows in the checkpoint, so the run skips it and changes nothing. -/
theorem run_scraper_skips_capped_witness :
    (∀ r ∈ cappedOut.appended, rowKeyword r ≠ some "k")
    ∧ lookupA cappedOut.checkpoint.positions "k" = lookupA cappedCp.positions "k"
    ∧ lookupA cappedOut.checkpoint.keywords_done "k" = lookupA cappedCp.keywords_done "k" :=
  run_scraper_skips_capped cappedEnv scanParamsK "k" cappedCp cappedOut rfl
    (by decide) rfl

/-! ### Dedup invariant -/

theorem channelUrl_inj : Function.Injective channelUrl := by
  intro a b h
  have hd := congrArg String.data h
  simp only [channelUrl, String.data_append] at hd
  exact String.ext (List.append_cancel_left hd)

theorem candidateOf_spec {params : KeywordParams} {existing : List String}
    {ch : ChannelDetail} {c : Candidate}
    (h : candidateOf params existing ch = some c) :
    c.url ∉ existing ∧ c.url = channelUrl c.id := by
  unfold candidateOf at h
  cases hid : ch.id with
  | none => rw [hid] at h; exact absurd h (by simp)
  | some cid =>
      rw [hid] at h
      dsimp only at h
      split_ifs at h with h1 h2 h3 h4
      all_goals simp at h
      subst h
      exact ⟨h1, rfl⟩

theorem firstOccKeysGo_spec :
    ∀ (l seen : List String), ∀ x ∈ firstOccKeysGo seen l, x ∈ l ∧ x ∉ seen := by
  intro l
  induction l with
  | nil => intro seen x hx; simp [firstOccKeysGo] at hx
  | cons k ks ih =>
      intro seen x hx
      simp only [firstOccKeysGo] at hx
      by_cases hk : k ∈ seen
      · rw [if_pos hk] at hx
        obtain ⟨h1, h2⟩ := ih seen x hx
        exact ⟨List.mem_cons_of_mem _ h1, h2⟩
      · rw [if_neg hk] at hx
        rcases List.mem_cons.mp hx with rfl | hx2
        · exact ⟨List.mem_cons_self _ _, hk⟩
        · obtain ⟨h1, h2⟩ := ih (k :: seen) x hx2
          exact ⟨List.mem_cons_of_mem _ h1, fun hin => h2 (List.mem_cons_of_mem _ hin)⟩

theorem firstOccKeysGo_nodup : ∀ (l seen : List String), (firstOccKeysGo seen l).Nodup := by
  intro l
  induction l with
  | nil => intro seen; simp [firstOccKeysGo]
  | cons k ks ih =>
      intro seen
      simp only [firstOccKeysGo]
      by_cases hk : k ∈ seen
      · rw [if_pos hk]; exact ih seen
      · rw [if_neg hk]
        refine List.nodup_cons.mpr ⟨?_, ih (k :: seen)⟩
        intro hkin
        exact (firstOccKeysGo_spec ks (k :: seen) k hkin).2 (List.mem_cons_self _ _)

theorem firstOccKeys_subset (l : List String) : ∀ x ∈ firstOccKeys l, x ∈ l :=
  fun x hx => (firstOccKeysGo_spec l [] x hx).1

theorem firstOccKeys_nodup (l : List String) : (firstOccKeys l).Nodup :=
  firstOccKeysGo_nodup l []

theorem lastWithId_mem {cs : List Candidate} {i : String}
    (h : i ∈ cs.map (fun c => c.id)) :
    lastWithId cs i ∈ cs ∧ (lastWithId cs i).id = i := by
  obtain ⟨c, hc, hci⟩ := List.mem_map.mp h
  have hcf : c ∈ cs.filter (fun c => c.id == i) :=
    List.mem_filter.mpr ⟨hc, by simp [hci]⟩
  have hne : cs.filter (fun c => c.id == i) ≠ [] := List.ne_nil_of_mem hcf
  have hsome : (cs.filter (fun c => c.id == i)).getLast?.isSome :=
    List.getLast?_isSome.mpr hne
  obtain ⟨x, hx⟩ := Option.isSome_iff_exists.mp hsome
  have hxl : x ∈ cs.filter (fun c => c.id == i) := by
    obtain ⟨hh, hxe⟩ := List.mem_getLast?_eq_getLast (Option.mem_def.mpr hx)
    rw [hxe]
    exact List.getLast_mem hh
  unfold lastWithId
  rw [hx]
  simp only [Option.getD_some]
  have hmf := List.mem_filter.mp hxl
  exact ⟨hmf.1, by simpa using hmf.2⟩

theorem dictValues_subset {cs : List Candidate} : ∀ v ∈ dictValues cs, v ∈ cs := by
  intro v hv
  unfold dictValues at hv
  obtain ⟨i, hi, hv⟩ := List.mem_map.mp hv
  subst hv
  exact (lastWithId_mem (firstOccKeys_subset _ i hi)).1

theorem dictValues_urls_nodup {cs : List Candidate}
    (hurl : ∀ c ∈ cs, c.url = channelUrl c.id) :
    ((dictValues cs).map (fun c => c.url)).Nodup := by
  unfold dictValues
  rw [List.map_map]
  have he : ∀ i ∈ firstOccKeys (cs.map (fun c => c.id)),
      ((fun c => c.url) ∘ lastWithId cs) i = channelUrl i := by
    intro i hi
    obtain ⟨hmem, hid⟩ := lastWithId_mem (firstOccKeys_subset _ i hi)
    simp only [Function.comp_apply]
    rw [hurl _ hmem, hid]
  rw [List.map_congr_left he]
  exact List.Nodup.map channelUrl_inj (firstOccKeys_nodup _)

theorem execLoop_inv (env : ApiEnv) (kw : String) (E0 : List String) :
    ∀ (cands : List Candidate) (rows : List (List String)) (ex : List String)
      (added clk : Nat),
      (∀ u ∈ E0, u ∈ ex) →
      (∀ r ∈ rows, ∃ u, rowUrl r = some u ∧ u ∈ ex ∧ u ∉ E0) →
      (rows.map rowUrl).Nodup →
      (∀ c ∈ cands, c.url ∉ ex) →
      ((cands.map (fun c => c.url)).Nodup) →
      (∀ u ∈ E0, u ∈ (execLoop env kw cands rows ex added clk).2.1)
      ∧ (∀ r ∈ (execLoop env kw cands rows ex added clk).1,
          ∃ u, rowUrl r = some u ∧ u ∈ (execLoop env kw cands rows ex added clk).2.1
            ∧ u ∉ E0)
      ∧ ((execLoop env kw cands rows ex added clk).1.map rowUrl).Nodup
      ∧ (∀ u ∈ ex, u ∈ (execLoop env kw cands rows ex added clk).2.1)
      ∧ (∀ r ∈ (execLoop env kw cands rows ex added clk).1,
          r ∈ rows ∨ ∃ u, rowUrl r = some u ∧ u ∉ ex) := by
  intro cands
  induction cands with
  | nil =>
      intro rows ex added clk hE0 hrows hnd _ _
      exact ⟨hE0, hrows, hnd, fun u hu => hu, fun r hr => Or.inl hr⟩
  | cons c cs ih =>
      intro rows ex added clk hE0 hrows hnd hcex hcnd
      simp only [execLoop]
      by_cases h1 : env.stop clk = true
      · rw [if_pos h1]
        exact ⟨hE0, hrows, hnd, fun u hu => hu, fun r hr => Or.inl hr⟩
      rw [if_neg h1]
      have hcu : c.url ∉ ex := hcex c (List.mem_cons_self c cs)
      have hE0' : ∀ u ∈ E0, u ∈ c.url :: ex :=
        fun u hu => List.mem_cons_of_mem _ (hE0 u hu)
      have hrows' : ∀ r ∈ rows ++ [[c.title, String.intercalate ", " c.emails, c.url, kw]],
          ∃ u, rowUrl r = some u ∧ u ∈ c.url :: ex ∧ u ∉ E0 := by
        intro r hr
        rcases List.mem_append.mp hr with h | h
        · obtain ⟨u, h5, h6, h7⟩ := hrows r h
          exact ⟨u, h5, List.mem_cons_of_mem _ h6, h7⟩
        · simp only [List.mem_singleton] at h
          subst h
          exact ⟨c.url, rfl, List.mem_cons_self _ _, fun hin => hcu (hE0 _ hin)⟩
      have hnotin : some c.url ∉ rows.map rowUrl := by
        intro hin
        obtain ⟨r, hrm, hru⟩ := List.mem_map.mp hin
        obtain ⟨u, h5, h6, h7⟩ := hrows r hrm
        rw [h5] at hru
        injection hru with h8
        exact hcu (h8 ▸ h6)
      have hnd' : ((rows ++ [[c.title, String.intercalate ", " c.emails, c.url, kw]]).map
          rowUrl).Nodup := by
        rw [List.map_append, List.nodup_append]
        refine ⟨hnd, List.nodup_singleton _, ?_⟩
        intro a ha hb
        simp only [List.map_cons, List.map_nil, List.mem_singleton] at hb
        subst hb
        exact hnotin ha
      have hpair : (∀ x ∈ cs, ¬x.url = c.url) ∧ (cs.map (fun c => c.url)).Nodup := by
        simpa using hcnd
      have hcex' : ∀ c' ∈ cs, c'.url ∉ c.url :: ex := by
        intro c' hc' hin
        rcases List.mem_cons.mp hin with he | hin2
        · exact hpair.1 c' hc' he
        · exact hcex c' (List.mem_cons_of_mem _ hc') hin2
      by_cases h2 : MAX_VALID_PER_KEYWORD ≤ added + 1
      · rw [if_pos h2]
        refine ⟨hE0', hrows', hnd', fun u hu => List.mem_cons_of_mem _ hu, ?_⟩
        intro r hr
        rcases List.mem_append.mp hr with h | h
        · exact Or.inl h
        · simp only [List.mem_singleton] at h
          subst h
          exact Or.inr ⟨c.url, rfl, hcu⟩
      · rw [if_neg h2]
        obtain ⟨g1, g2, g3, g4, g5⟩ := ih
          (rows ++ [[c.title, String.intercalate ", " c.emails, c.url, kw]])
          (c.url :: ex) (added + 1) (clk + 1) hE0' hrows' hnd' hcex' hpair.2
        refine ⟨g1, g2, g3, fun u hu => g4 u (List.mem_cons_of_mem _ hu), ?_⟩
        intro r hr
        rcases g5 r hr with h | h
        · rcases List.mem_append.mp h with h' | h'
          · exact Or.inl h'
          · simp only [List.mem_singleton] at h'
            subst h'
            exact Or.inr ⟨c.url, rfl, hcu⟩
        · obtain ⟨u, h5, h6⟩ := h
          exact Or.inr ⟨u, h5, fun hin => h6 (List.mem_cons_of_mem _ hin)⟩

theorem processPages_inv (env : ApiEnv) (params : KeywordParams) (E0 : List String) :
    ∀ (fuel : Nat) (token : Option String) (added : Nat) (st : ScrapeState),
      (∀ u ∈ E0, u ∈ st.existing) →
      (∀ r ∈ st.appended, ∃ u, rowUrl r = some u ∧ u ∈ st.existing ∧ u ∉ E0) →
      ((st.appended.map rowUrl).Nodup) →
      (∀ u ∈ E0, u ∈ (processPages env params fuel token added st).existing)
      ∧ (∀ r ∈ (processPages env params fuel token added st).appended,
          ∃ u, rowUrl r = some u
            ∧ u ∈ (processPages env params fuel token added st).existing ∧ u ∉ E0)
      ∧ (((processPages env params fuel token added st).appended.map rowUrl).Nodup) := by
  intro fuel
  induction fuel with
  | zero => intro token added st hE0 hrows hnd; exact ⟨hE0, hrows, hnd⟩
  | succ fuel ih =>
      intro token added st hE0 hrows hnd
      simp only [processPages]
      by_cases h1 : MAX_VALID_PER_KEYWORD ≤ added
      · rw [if_pos h1]; exact ⟨hE0, hrows, hnd⟩
      rw [if_neg h1]
      by_cases h2 : env.stop st.clock = true
      · rw [if_pos h2]; exact ⟨hE0, hrows, hnd⟩
      rw [if_neg h2]
      by_cases h3 : ((env.search params.keyword token).items.filterMap (fun x => x)).isEmpty
        = true
      · rw [if_pos h3]; exact ⟨hE0, hrows, hnd⟩
      rw [if_neg h3]
      have hcand : ∀ c ∈ (env.details ((env.search params.keyword token).items.filterMap
          (fun x => x))).filterMap (candidateOf params st.existing),
          c.url ∉ st.existing ∧ c.url = channelUrl c.id := by
        intro c hc
        obtain ⟨ch, _, hco⟩ := List.mem_filterMap.mp hc
        exact candidateOf_spec hco
      have hvals_notin : ∀ v ∈ dictValues ((env.details ((env.search params.keyword
          token).items.filterMap (fun x => x))).filterMap (candidateOf params st.existing)),
          v.url ∉ st.existing :=
        fun v hv => (hcand v (dictValues_subset v hv)).1
      have hvals_nodup : ((dictValues ((env.details ((env.search params.keyword
          token).items.filterMap (fun x => x))).filterMap
          (candidateOf params st.existing))).map (fun c => c.url)).Nodup :=
        dictValues_urls_nodup (fun c hc => (hcand c hc).2)
      obtain ⟨g1, g2, g3, g4, g5⟩ := execLoop_inv env params.keyword E0
        (dictValues ((env.details ((env.search params.keyword token).items.filterMap
          (fun x => x))).filterMap (candidateOf params st.existing)))
        [] st.existing added (st.clock + 1) hE0 (by simp) (by simp) hvals_notin hvals_nodup
      have hrows2 : ∀ r ∈ st.appended ++ (execLoop env params.keyword
          (dictValues ((env.details ((env.search params.keyword token).items.filterMap
            (fun x => x))).filterMap (candidateOf params st.existing)))
          [] st.existing added (st.clock + 1)).1,
          ∃ u, rowUrl r = some u ∧ u ∈ (execLoop env params.keyword
            (dictValues ((env.details ((env.search params.keyword token).items.filterMap
              (fun x => x))).filterMap (candidateOf params st.existing)))
            [] st.existing added (st.clock + 1)).2.1 ∧ u ∉ E0 := by
        intro r hr
        rcases List.mem_append.mp hr with h | h
        · obtain ⟨u, h5, h6, h7⟩ := hrows r h
          exact ⟨u, h5, g4 u h6, h7⟩
        · exact g2 r h
      have hnd2 : ((st.appended ++ (execLoop env params.keyword
          (dictValues ((env.details ((env.search params.keyword token).items.filterMap
            (fun x => x))).filterMap (candidateOf params st.existing)))
          [] st.existing added (st.clock + 1)).1).map rowUrl).Nodup := by
        rw [List.map_append, List.nodup_append]
        refine ⟨hnd, g3, ?_⟩
        intro a ha hb
        obtain ⟨r1, hr1, hru1⟩ := List.mem_map.mp ha
        obtain ⟨r2, hr2, hru2⟩ := List.mem_map.mp hb
        obtain ⟨u1, h5, h6, h7⟩ := hrows r1 hr1
        rcases g5 r2 hr2 with hcontra | ⟨u2, h8, h9⟩
        · exact absurd hcontra (List.not_mem_nil r2)
        · rw [h5] at hru1
          rw [h8] at hru2
          rw [← hru2] at hru1
          injection hru1 with h10
          exact h9 (h10 ▸ h6)
      cases h4 : (env.search params.keyword token).nextPageToken with
      | none => exact ⟨g1, hrows2, hnd2⟩
      | some tk =>
          exact ih tk (execLoop env params.keyword
            (dictValues ((env.details ((env.search params.keyword token).items.filterMap
              (fun x => x))).filterMap (candidateOf params st.existing)))
            [] st.existing added (st.clock + 1)).2.2.1
            { existing := _, checkpoint := _, savedFile := _, clock := _, appended := _ }
            g1 hrows2 hnd2

theorem runKeywords_dedup (env : ApiEnv) (params : ScanParams) (E0 : List String) :
    ∀ (kws : List String) (total : Nat) (st : ScrapeState),
      (∀ u ∈ E0, u ∈ st.existing) →
      (∀ r ∈ st.appended, ∃ u, rowUrl r = some u ∧ u ∈ st.existing ∧ u ∉ E0) →
      ((st.appended.map rowUrl).Nodup) →
      (((runKeywords env params kws total st).appended.map rowUrl).Nodup)
      ∧ (∀ r ∈ (runKeywords env params kws total st).appended,
          ∃ u, rowUrl r = some u ∧ u ∉ E0) := by
  intro kws
  induction kws with
  | nil =>
      intro total st _ hrows hnd
      exact ⟨hnd, fun r hr => (hrows r hr).imp (fun u h => ⟨h.1, h.2.2⟩)⟩
  | cons kw rest ih =>
      intro total st hE0 hrows hnd
      simp only [runKeywords]
      by_cases h1 : env.stop st.clock = true
      · rw [if_pos h1]
        exact ⟨hnd, fun r hr => (hrows r hr).imp (fun u h => ⟨h.1, h.2.2⟩)⟩
      rw [if_neg h1]
      by_cases h2 : MAX_VALID_PER_KEYWORD
          ≤ doneCount ({ st with clock := st.clock + 1 } : ScrapeState).checkpoint kw
      · rw [if_pos h2]
        exact ih total { st with clock := st.clock + 1 } hE0 hrows hnd
      · rw [if_neg h2]
        dsimp only [process_keyword, addTotal]
        obtain ⟨p1, p2, p3⟩ := processPages_inv env
          { keyword := kw, min_subs := params.min_subs, max_subs := params.max_subs,
            inactivity_days := params.inactivity_days } E0 6
          ((lookupA st.checkpoint.positions kw).join)
          ((lookupA st.checkpoint.keywords_done kw).getD 0)
          { st with clock := st.clock + 1 } hE0 hrows hnd
        exact ⟨p3, fun r hr => (p2 r hr).imp (fun u h => ⟨h.1, h.2.2⟩)⟩

/-- C6: within a single run, no channel URL is appended to the sheet twice —
the appended rows' URL column is duplicate-free — and no appended URL was in
the dedup set seeded from the existing sheet rows, even across multiple
keywords and pages. -/
theorem run_scraper_dedup (env : ApiEnv) (params : ScanParams) (out : RunOutcome)
    (hrun : run_scraper env params = Except.ok out) :
    ((out.appended.map rowUrl).Nodup)
    ∧ (∀ r ∈ out.appended, ∃ u, rowUrl r = some u
        ∧ u ∉ seedExisting env.sheetRows) := by
  unfold run_scraper at hrun
  cases hload : (load_checkpoint env.checkpointFile).1 with
  | error e => rw [hload] at hrun; exact absurd hrun (by simp)
  | ok cp =>
      rw [hload] at hrun
      simp only [Except.ok.injEq] at hrun
      subst hrun
      exact runKeywords_dedup env params (seedExisting env.sheetRows) params.keywords 0
        { existing := seedExisting env.sheetRows, checkpoint := cp,
          savedFile := none, clock := 0, appended := [] }
        (fun u hu => hu) (by simp) (by simp)

/-- Witness for `run_scraper_dedup`: the `richEnv` run appends one row whose
URL is new and distinct from the seeded sheet contents. -/
theorem run_scraper_dedup_witness :
    ((richOut.appended.map rowUrl).Nodup)
    ∧ (∀ r ∈ richOut.appended, ∃ u, rowUrl r = some u
        ∧ u ∉ seedExisting richEnv.sheetRows) :=
  run_scraper_dedup richEnv scanParamsK richOut (by rfl)

/-! ### Unenforced inactivity parameter -/

theorem candidateOf_inactivity (kw : String) (lo hi d1 d2 : Nat) :
    candidateOf { keyword := kw, min_subs := lo, max_subs := hi, inactivity_days := d1 }
      = candidateOf
          { keyword := kw, min_subs := lo, max_subs := hi, inactivity_days := d2 } := rfl

theorem processPages_inactivity (env : ApiEnv) (kw : String) (lo hi d1 d2 : Nat) :
    ∀ (fuel : Nat) (token : Option String) (added : Nat) (st : ScrapeState),
      processPages env
          { keyword := kw, min_subs := lo, max_subs := hi, inactivity_days := d1 }
          fuel token added st
        = processPages env
          { keyword := kw, min_subs := lo, max_subs := hi, inactivity_days := d2 }
          fuel token added st := by
  intro fuel
  induction fuel with
  | zero => intro token added st; rfl
  | succ fuel ih =>
      intro token added st
      simp only [processPages]
      by_cases h1 : MAX_VALID_PER_KEYWORD ≤ added
      · rw [if_pos h1, if_pos h1]
      rw [if_neg h1, if_neg h1]
      by_cases h2 : env.stop st.clock = true
      · rw [if_pos h2, if_pos h2]
      rw [if_neg h2, if_neg h2]
      by_cases h3 : ((env.search kw token).items.filterMap (fun x => x)).isEmpty = true
      · rw [if_pos h3, if_pos h3]
      rw [if_neg h3, if_neg h3]
      rw [candidateOf_inactivity kw lo hi d1 d2]
      cases h4 : (env.search kw token).nextPageToken with
      | none => rfl
      | some tk => exact ih tk _ _

theorem runKeywords_inactivity (env : ApiEnv) (p1 p2 : ScanParams)
    (hlo : p1.min_subs = p2.min_subs) (hhi : p1.max_subs = p2.max_subs) :
    ∀ (kws : List String) (total : Nat) (st : ScrapeState),
      runKeywords env p1 kws total st = runKeywords env p2 kws total st := by
  intro kws
  induction kws with
  | nil => intro total st; rfl
  | cons kw rest ih =>
      intro total st
      simp only [runKeywords]
      by_cases h1 : env.stop st.clock = true
      · rw [if_pos h1, if_pos h1]
      rw [if_neg h1, if_neg h1]
      by_cases h2 : MAX_VALID_PER_KEYWORD
          ≤ doneCount ({ st with clock := st.clock + 1 } : ScrapeState).checkpoint kw
      · rw [if_pos h2, if_pos h2]
        exact ih total _
      · rw [if_neg h2, if_neg h2]
        dsimp only [process_keyword, addTotal]
        have hp : processPages env
            { keyword := kw, min_subs := p1.min_subs, max_subs := p1.max_subs,
              inactivity_days := p1.inactivity_days } 6
            ((lookupA st.checkpoint.positions kw).join)
            ((lookupA st.checkpoint.keywords_done kw).getD 0)
            { st with clock := st.clock + 1 }
          = processPages env
            { keyword := kw, min_subs := p2.min_subs, max_subs := p2.max_subs,
              inactivity_days := p2.inactivity_days } 6
            ((lookupA st.checkpoint.positions kw).join)
            ((lookupA st.checkpoint.keywords_done kw).getD 0)
            { st with clock := st.clock + 1 } := by
          rw [hlo, hhi]
          exact processPages_inactivity env kw p2.min_subs p2.max_subs
            p1.inactivity_days p2.inactivity_days 6 _ _ _
        rw [hp]

/-- C10: two runs identical in every input and external response but for the
`inactivity_days` parameter produce identical outcomes — the same appended
rows, checkpoint, saved file, summary and error: the parameter is accepted
but has no effect on scraping behaviour. -/
theorem run_scraper_ignores_inactivity (env : ApiEnv) (p1 p2 : ScanParams)
    (hk : p1.keywords = p2.keywords) (hlo : p1.min_subs = p2.min_subs)
    (hhi : p1.max_subs = p2.max_subs) :
    run_scraper env p1 = run_scraper env p2 := by
  unfold run_scraper
  cases hload : (load_checkpoint env.checkpointFile).1 with
  | error e => rfl
  | ok cp =>
      dsimp only
      rw [hk, runKeywords_inactivity env p1 p2 hlo hhi]

/-- Witness for `run_scraper_ignores_inactivity`: 30 versus 90 days of
allowed inactivity, all else equal. -/
theorem run_scraper_ignores_inactivity_witness :
    run_scraper emptyEnv
        { keywords := ["k"], min_subs := 0, max_subs := 10, inactivity_days := 30 }
      = run_scraper emptyEnv scanParamsK :=
  run_scraper_ignores_inactivity emptyEnv
    { keywords := ["k"], min_subs := 0, max_subs := 10, inactivity_days := 30 }
    scanParamsK rfl rfl rfl
